import Mathlib

/-!
Shallow embedding of the destructible-terrain subsystem of the artillery
game in `main.py` (classes `TerrainMap` and `TerrainGenerator`), together
with theorems settling the frozen claims about it.

Modelling conventions:
* Python machine integers are modelled by `ℤ`; `int()` truncation of a
  float toward zero is `pytrunc` on `ℚ`.
* `math.sqrt(d2) <= r` on integer inputs is modelled by the exact
  equivalent `d2 ≤ r ^ 2` (for `r ≥ 0`; the code only reaches the
  comparison with loop indices of an integer bounding box, where both
  sides are exact small doubles, so the float comparison agrees with the
  exact one).  Likewise `distance < 0.8 * (r1 + r2)` is modelled by the
  exact rational equivalent `25 * d2 < 16 * (r1 + r2) ^ 2` together with
  `0 ≤ r1 + r2`.
* `time.time()` is an external input; mutating operations take the
  current time as an explicit argument.
* The pseudo-random generator is an external oracle: an indexed stream of
  rationals (for `random.random()`) and integers (for `random.randint` /
  `random.choice`), consumed left to right.  `random.randint(a, b)` is
  modelled as clamping the oracle value into `[a, b]` when `a ≤ b` — the
  set of possible results is exactly the set Python can produce — and as
  failure (`none`, a raised `ValueError`) when the range is empty.
* `math.sin` and the float power `x ** e` are transcendental; they enter
  the embedding as explicit function parameters (`sinq`, `powq`).  Every
  theorem below either holds for all values of these parameters or
  evaluates them at concrete points where the float result is exact.
-/

namespace HeliGame

/-- Python `int()` applied to an exact rational: truncation toward zero. -/
def pytrunc (q : ℚ) : ℤ := if q < 0 then ⌈q⌉ else ⌊q⌋

/-- A crater record, `{'x', 'y', 'radius', 'creation_time'}` in the code.
`t` is the creation time. -/
structure Crater where
  x : ℤ
  y : ℤ
  r : ℤ
  t : ℤ
deriving DecidableEq

/-- State of `TerrainMap`: width/height, the per-pixel solidity grid
`terrain_pixels` (queried only at `[0,W) × [0,H)`), the derived
`height_map` and the crater-record list. -/
structure TerrainMap where
  width : ℕ
  height : ℕ
  grid : ℤ → ℤ → Bool
  heightMap : List ℤ
  craters : List Crater

/-- `TerrainMap.__init__` on a full per-column profile (list branch of the
constructor; the scalar branch is the same with a constant profile).
Cell `(x, y)` is solid iff it is in bounds and `profile[x] ≤ y`, exactly
what the loop `for y in range(int(gh), height)` marks for profiles with
values in `[0, height]`. -/
def mkTerrainMap (width height : ℕ) (profile : List ℤ) : TerrainMap where
  width := width
  height := height
  grid := fun x y =>
    decide (0 ≤ x ∧ x < (width : ℤ) ∧ 0 ≤ y ∧ y < (height : ℤ) ∧
            profile.getD x.toNat 0 ≤ y)
  heightMap := profile
  craters := []

/-- `TerrainMap.is_solid_at`: bounds-checked solidity query. -/
def is_solid_at (s : TerrainMap) (x y : ℤ) : Bool :=
  if x < 0 ∨ (s.width : ℤ) ≤ x ∨ y < 0 ∨ (s.height : ℤ) ≤ y then false
  else s.grid x y

/-- The loop `for y in range(...): if p(y): break`, with the number of
remaining iterations as structural fuel: the first row among
`y, y+1, …, y+fuel-1` where `p` holds, if any. -/
def firstFromAux (p : ℕ → Bool) : ℕ → ℕ → Option ℕ
  | 0, _ => none
  | fuel + 1, y => if p y then some y else firstFromAux p fuel (y + 1)

/-- Topmost solid row of column `x`, or `H` if the column is empty
(`for y in range(height): if solid: height = y; break`). -/
def firstSolid (g : ℤ → ℤ → Bool) (H : ℕ) (x : ℤ) : ℕ :=
  match firstFromAux (fun y => g x (y : ℤ)) H 0 with
  | some y => y
  | none => H

/-- `TerrainMap._update_height_map`: full recomputation of the height
profile from the grid. -/
def updateHeightMap (s : TerrainMap) : TerrainMap :=
  { s with heightMap :=
      (List.range s.width).map fun x : ℕ =>
        ((firstSolid s.grid s.height (x : ℤ) : ℕ) : ℤ) }

/-- The derived height profile of a state (what `_update_height_map`
stores). -/
def derivedHeightMap (s : TerrainMap) : List ℤ :=
  (List.range s.width).map fun x : ℕ =>
    ((firstSolid s.grid s.height (x : ℤ) : ℕ) : ℤ)

/-- The cell `(x, y)` is visited by the carve loops of `create_crater`
with center `(cx, cy)` and radius `r`, and lies within Euclidean distance
`r` of the center.  The first four conjuncts are the two `range` bounds
`max(0, c-r) ≤ i < min(size, c+r+1)`; the last is the exact form of
`math.sqrt(...) <= radius`. -/
def carve (W H : ℕ) (cx cy r : ℤ) (x y : ℤ) : Bool :=
  decide (max 0 (cx - r) ≤ x ∧ x < min (W : ℤ) (cx + r + 1) ∧
          max 0 (cy - r) ≤ y ∧ y < min (H : ℤ) (cy + r + 1) ∧
          (x - cx) ^ 2 + (y - cy) ^ 2 ≤ r ^ 2)

/-- `TerrainMap.create_crater`: appends a crater record stamped with the
current time, clears every carved cell, then recomputes the height
profile. -/
def create_crater (s : TerrainMap) (cx cy r : ℤ) (now : ℤ) : TerrainMap :=
  updateHeightMap
    { s with
      craters := s.craters ++ [⟨cx, cy, r, now⟩]
      grid := fun x y =>
        if carve s.width s.height cx cy r x y then false else s.grid x y }

/-- Clamp of an x coordinate to a column index,
`max(0, min(width - 1, int(x)))`. -/
def clampCol (s : TerrainMap) (x : ℤ) : ℤ :=
  max 0 (min ((s.width : ℤ) - 1) x)

/-- One step of the `for dx in range(-3, 4)` window scan of
`get_ground_height`: if column `c = xi + d - 3` is in bounds and has a
solid pixel (`firstSolid < H` is exactly «the inner loop broke»), take the
minimum with its topmost solid row; otherwise keep the accumulator. -/
def ghStep (W H : ℕ) (q : ℤ → ℕ) (xi : ℤ) (acc : ℤ) (d : ℕ) : ℤ :=
  if 0 ≤ xi + (d : ℤ) - 3 ∧ xi + (d : ℤ) - 3 < (W : ℤ) then
    (if q (xi + (d : ℤ) - 3) < H then min acc (q (xi + (d : ℤ) - 3) : ℤ) else acc)
  else acc

/-- `TerrainMap.get_ground_height`: windowed minimum of the topmost solid
rows of the columns within `±3` of the clamped column, seeded with
`height_map[x_int]`.  A column with no solid pixel contributes nothing
(the inner loop breaks only on a solid pixel). -/
def get_ground_height (s : TerrainMap) (x : ℤ) : ℤ :=
  (List.range 7).foldl
    (ghStep s.width s.height (firstSolid s.grid s.height) (clampCol s x))
    (s.heightMap.getD (clampCol s x).toNat 0)

/-- Downward scan of one column starting at row `y` (possibly negative),
with Python list-index semantics: an index in `[-H, 0)` wraps around to
`H + y`, an index below `-H` raises `IndexError` (`none`).  The fuel is
the iteration count of `for y in range(int(y_start), H)`; when it runs
out the function returns `H` (`self.height`), the fall-through result. -/
def accFromAux (col : ℤ → Bool) (H : ℕ) : ℕ → ℤ → Option ℤ
  | 0, _ => some (H : ℤ)
  | fuel + 1, y =>
    if y < -(H : ℤ) then none
    else if (if y < 0 then col ((H : ℤ) + y) else col y) then some y
    else accFromAux col H fuel (y + 1)

/-- `TerrainMap.get_accurate_ground_height` (explicit `y_start`; the
`None` default is `0`). -/
def get_accurate_ground_height (s : TerrainMap) (x ystart : ℤ) : Option ℤ :=
  accFromAux (fun y => s.grid (clampCol s x) y) s.height
    (((s.height : ℤ) - ystart).toNat) ystart

/-- Result of `check_wall_collision`: `'left'`/`'right'` or `None`. -/
inductive WallSide where
  | left : WallSide
  | right : WallSide
deriving DecidableEq

/-- The scanning loop of `check_wall_collision`:
`for check_y in range(y, y + h, 2)`, testing the left edge before the
right one at each scanned row; the fuel is the iteration count
`⌈h / 2⌉` of that stepped range. -/
def wallScanAux (s : TerrainMap) (x w : ℤ) : ℕ → ℤ → Option WallSide
  | 0, _ => none
  | fuel + 1, y =>
    if is_solid_at s (x - 1) y then some .left
    else if is_solid_at s (x + w) y then some .right
    else wallScanAux s x w fuel (y + 2)

/-- `TerrainMap.check_wall_collision` on a rectangle `(x, y, w, h)`:
`range(y, y + h, 2)` visits `((h + 1).tdiv 2).toNat` rows. -/
def check_wall_collision (s : TerrainMap) (x y w h : ℤ) : Option WallSide :=
  wallScanAux s x w (((h + 1).tdiv 2).toNat) y

/-- Squared distance between two crater centers. -/
def dist2 (a b : Crater) : ℤ := (a.x - b.x) ^ 2 + (a.y - b.y) ^ 2

/-- The overlap predicate of `merge_overlapping_craters`:
`distance < (r1 + r2) * 0.8` in exact form (see the header note). -/
def overlapB (a b : Crater) : Bool :=
  decide (0 ≤ a.r + b.r ∧ 25 * dist2 a b < 16 * (a.r + b.r) ^ 2)

/-- Largest `k ≤ fuel` with `k * k ≤ n` (`0` when there is none): a
kernel-computable integer square root scan. -/
def isqrtAux (n : ℕ) : ℕ → ℕ
  | 0 => 0
  | k + 1 => if (k + 1) * (k + 1) ≤ n then k + 1 else isqrtAux n k

/-- `⌊√n⌋`: the largest `k` with `k * k ≤ n` (`k = n` always suffices as
a search bound). -/
def isqrt (n : ℕ) : ℕ := isqrtAux n n

/-- Floor of the Euclidean distance between the two centers
(`math.sqrt` of a small integer, truncated). -/
def distFloor (a b : Crater) : ℤ := (isqrt (dist2 a b).toNat : ℤ)

/-- The merged record built when `cur` (the record being inserted)
overlaps `old` (the accumulator entry `merged[j]`): radius²-weighted
centroid, envelope radius capped at `max(r1, r2) + 20`, and the later
creation time.  The float weight arithmetic
`int(x1*w1 + x2*w2)` and `int(max(d+r1, d+r2, r1 + r2*0.5))` is modelled
by the exact rational value truncated toward zero; all uses below
evaluate it at inputs where the doubles are exact. -/
def mergeRec (cur old : Crater) : Crater where
  x := (cur.x * cur.r ^ 2 + old.x * old.r ^ 2).tdiv (cur.r ^ 2 + old.r ^ 2)
  y := (cur.y * cur.r ^ 2 + old.y * old.r ^ 2).tdiv (cur.r ^ 2 + old.r ^ 2)
  r := min (max (max (distFloor cur old + cur.r) (distFloor cur old + old.r))
                ((2 * cur.r + old.r).tdiv 2))
           (max cur.r old.r + 20)
  t := max cur.t old.t

/-- Inner accumulator pass: replace the first entry that satisfies the
overlap predicate with the merged record (`merged[j] = ...; break`), or
append the record unchanged. -/
def insertMerge (c : Crater) : List Crater → List Crater
  | [] => [c]
  | m :: ms => if overlapB c m then mergeRec c m :: ms else m :: insertMerge c ms

/-- Stable insertion into a list already sorted by creation time. -/
def insertByTime (c : Crater) : List Crater → List Crater
  | [] => [c]
  | m :: ms => if m.t ≤ c.t then m :: insertByTime c ms else c :: m :: ms

/-- `list.sort(key=creation_time)`: a stable sort by creation time. -/
def sortByTime (l : List Crater) : List Crater :=
  l.foldl (fun acc c => insertByTime c acc) []

/-- The final truncation of the merge pass: keep the 50 most recent
entries (`self.craters[-50:]`) when the cap is exceeded. -/
def mergeTrunc (m : List Crater) : List Crater :=
  if 50 < m.length then m.drop (m.length - 50) else m

/-- `TerrainMap.merge_overlapping_craters` as a function on the crater
list: early return below two records, stable sort by creation time,
accumulator pass, then truncation to the 50 most recent entries. -/
def mergeCraterList (l : List Crater) : List Crater :=
  if l.length < 2 then l
  else mergeTrunc ((sortByTime l).foldl (fun acc c => insertMerge c acc) [])

/-- `TerrainMap.merge_overlapping_craters` on the state. -/
def merge_overlapping_craters (s : TerrainMap) : TerrainMap :=
  { s with craters := mergeCraterList s.craters }

/-! ### The terrain generator (`TerrainGenerator`)

The random oracle is a pair of streams `rq : ℕ → ℚ` (values of
`random.random()`) and `rz : ℕ → ℤ` (raw values behind `random.randint`
and `random.choice`) consumed at a shared running index. -/

/-- Screen width constant of `main.py`. -/
def SCREEN_WIDTH : ℕ := 1280

/-- Screen height constant of `main.py`. -/
def SCREEN_HEIGHT : ℕ := 720

/-- `TerrainGenerator.base_ground_level = SCREEN_HEIGHT - 100`. -/
def base_ground_level : ℚ := (SCREEN_HEIGHT : ℚ) - 100

/-- `random.randint(a, b)` driven by the oracle value `pick`: any value
of `[a, b]` is reachable; an empty range raises `ValueError` (`none`). -/
def pyRandint (pick a b : ℤ) : Option ℤ :=
  if a ≤ b then some (max a (min b pick)) else none

/-- The pre-clamp column value of `generate_height_map`: the sine-layer
sum with the asymmetric-slope modifier and the per-column jitter
(`random.random()` is drawn at oracle index `k`). -/
def ghmTotal (sinq : ℚ → ℚ) (rq : ℕ → ℚ) (c : ℚ) (x k : ℕ) : ℚ :=
  let ph0 := sinq ((x : ℚ) * (1/500 * c)) * (80 * c)
  let sh0 := sinq ((x : ℚ) * (3/500 * c)) * (35 * c)
  let th := sinq ((x : ℚ) * (3/200 * c)) * (15 * c)
  let rh := sinq ((x : ℚ) * (1/20 * c)) * (5 * c)
  let asym := sinq ((x : ℚ) * (1/250 * c))
  let ph := if 0 < asym then ph0 + asym * 20 * c else ph0
  let sh := if 0 < asym then sh0 + asym * 20 * c * (1/2) else sh0
  let rv := (rq k - 1/2) * 12 * c
  base_ground_level + ph + sh + th + rh + rv

/-- One emitted column height: the total clamped to the band
`[SCREEN_HEIGHT - 220, SCREEN_HEIGHT - 40]` and truncated by `int()`. -/
def ghmVal (sinq : ℚ → ℚ) (rq : ℕ → ℚ) (c : ℚ) (x k : ℕ) : ℤ :=
  pytrunc (max ((SCREEN_HEIGHT : ℚ) - 220)
               (min ((SCREEN_HEIGHT : ℚ) - 40) (ghmTotal sinq rq c x k)))

/-- Oracle-index advance for one column:
`if x % 200 == 0: if random.random() < 0.3: ...` draws one rational and,
when taken, three `randint`s from constant non-empty ranges; the dune
loop it guards is `pass`, so only the consumption remains. -/
def ghmNext (rq : ℕ → ℚ) (x k : ℕ) : ℕ :=
  if x % 200 = 0 then (if rq (k + 1) < 3/10 then k + 5 else k + 2) else k + 1

/-- One column of `TerrainGenerator.generate_height_map`: append the
clamped value, advance the oracle. -/
def ghmStep (sinq : ℚ → ℚ) (rq : ℕ → ℚ) (c : ℚ) (st : List ℤ × ℕ) (x : ℕ) :
    List ℤ × ℕ :=
  (st.1 ++ [ghmVal sinq rq c x st.2], ghmNext rq x st.2)

/-- `TerrainGenerator.generate_height_map(width, complexity)`, returning
the profile together with the advanced oracle index. -/
def generate_height_map (sinq : ℚ → ℚ) (rq : ℕ → ℚ) (width : ℕ) (c : ℚ)
    (k : ℕ) : List ℤ × ℕ :=
  (List.range width).foldl (ghmStep sinq rq c) ([], k)

/-- The dune influence at column `x`: asymmetric falloff, with the float
`**` operator modelled by `powq` (exponent `3/2` on the steep side,
`7/10` on the gentle side). -/
def duneInfl (powq : ℚ → ℚ → ℚ) (center dw steep x : ℤ) : ℚ :=
  if 0 < (x - center) * steep then
    1 - powq (((|x - center| : ℤ) : ℚ) / (dw : ℚ)) (3/2)
  else
    1 - powq (((|x - center| : ℤ) : ℚ) / (dw : ℚ)) (7/10)

/-- One column update of the dune overlay: subtract the (positive)
influence times the dune height, truncating with `int()`. -/
def duneCol (powq : ℚ → ℚ → ℚ) (center dw : ℤ) (dh : ℚ) (steep : ℤ)
    (m : List ℤ) (x : ℤ) : List ℤ :=
  if |x - center| < dw then
    (if 0 < duneInfl powq center dw steep x then
      m.set x.toNat
        (pytrunc ((m.getD x.toNat 0 : ℚ) - duneInfl powq center dw steep x * dh))
    else m)
  else m

/-- The inner column loop of `add_sand_dunes` for one dune: the columns
`x` run over `[max(0, center - dw), min(width, center + dw))`. -/
def duneApply (powq : ℚ → ℚ → ℚ) (width : ℕ) (center dw : ℤ) (dh : ℚ)
    (steep : ℤ) (hm : List ℤ) : List ℤ :=
  (List.range ((min (width : ℤ) (center + dw)) - max 0 (center - dw)).toNat).foldl
    (fun m (i : ℕ) =>
      duneCol powq center dw dh steep m (max 0 (center - dw) + (i : ℤ)))
    hm

/-- The per-dune loop of `add_sand_dunes`: draw center, width, height and
steep side, then apply the dune; `random.randint(100, width - 100)`
raises (`none`) when `width < 200`. -/
def duneLoop (powq : ℚ → ℚ → ℚ) (rz : ℕ → ℤ) (width : ℕ) (c : ℚ) :
    ℕ → List ℤ × ℕ → Option (List ℤ × ℕ)
  | 0, st => some st
  | n + 1, (hm, k) =>
    match pyRandint (rz k) 100 ((width : ℤ) - 100) with
    | none => none
    | some center =>
      match pyRandint (rz (k + 1)) 80 150 with
      | none => none
      | some dw =>
        match pyRandint (rz (k + 2)) 30 60 with
        | none => none
        | some dh0 =>
          let steep : ℤ := if rz (k + 3) ≤ 0 then -1 else 1
          duneLoop powq rz width c n
            (duneApply powq width center dw ((dh0 : ℚ) * c) steep hm, k + 4)

/-- `TerrainGenerator.add_sand_dunes(height_map, complexity)`:
`int(3 + complexity * 2)` dunes applied to a copy of the profile. -/
def add_sand_dunes (powq : ℚ → ℚ → ℚ) (rz : ℕ → ℤ) (hm : List ℤ) (c : ℚ)
    (k : ℕ) : Option (List ℤ × ℕ) :=
  duneLoop powq rz hm.length c (pytrunc (3 + c * 2)).toNat (hm, k)

/-- One iteration of `TerrainGenerator.smooth_terrain`: the weighted
3-point moving average `int(0.25*l + 0.5*m + 0.25*r)` (exact in doubles,
hence `(l + 2*m + r)` truncated by `4`) on interior indices. -/
def smoothOnce (hm : List ℤ) : List ℤ :=
  (List.range hm.length).map fun i =>
    if 1 ≤ i ∧ i + 1 < hm.length then
      (hm.getD (i - 1) 0 + 2 * hm.getD i 0 + hm.getD (i + 1) 0).tdiv 4
    else hm.getD i 0

/-- `TerrainGenerator.smooth_terrain(height_map, iterations)`. -/
def smooth_terrain (hm : List ℤ) : ℕ → List ℤ
  | 0 => hm
  | n + 1 => smooth_terrain (smoothOnce hm) n

/-- `TerrainGenerator.generate_varied_terrain(width, complexity)`: base
profile, dune overlay, one smoothing pass; fails when the dune overlay
raises. -/
def generate_varied_terrain (sinq : ℚ → ℚ) (powq : ℚ → ℚ → ℚ)
    (rq : ℕ → ℚ) (rz : ℕ → ℤ) (width : ℕ) (c : ℚ) (k : ℕ) :
    Option (List ℤ) :=
  match add_sand_dunes powq rz (generate_height_map sinq rq width c k).1 c
      (generate_height_map sinq rq width c k).2 with
  | none => none
  | some (dm, _) => some (smooth_terrain dm 1)

/-! ### Basic facts about the embedded operations -/

theorem width_create (s : TerrainMap) (cx cy r t : ℤ) :
    (create_crater s cx cy r t).width = s.width := rfl

theorem height_create (s : TerrainMap) (cx cy r t : ℤ) :
    (create_crater s cx cy r t).height = s.height := rfl

theorem grid_create (s : TerrainMap) (cx cy r t : ℤ) :
    (create_crater s cx cy r t).grid =
      fun x y => if carve s.width s.height cx cy r x y then false
                 else s.grid x y := rfl

theorem craters_create (s : TerrainMap) (cx cy r t : ℤ) :
    (create_crater s cx cy r t).craters = s.craters ++ [⟨cx, cy, r, t⟩] := rfl

theorem heightMap_create (s : TerrainMap) (cx cy r t : ℤ) :
    (create_crater s cx cy r t).heightMap =
      (List.range s.width).map fun i : ℕ =>
        ((firstSolid (create_crater s cx cy r t).grid s.height (i : ℤ) : ℕ) : ℤ) :=
  rfl

theorem carve_iff (W H : ℕ) (cx cy r x y : ℤ) :
    carve W H cx cy r x y = true ↔
      (max 0 (cx - r) ≤ x ∧ x < min (W : ℤ) (cx + r + 1) ∧
       max 0 (cy - r) ≤ y ∧ y < min (H : ℤ) (cy + r + 1) ∧
       (x - cx) ^ 2 + (y - cy) ^ 2 ≤ r ^ 2) := by
  simp [carve]

/-- `is_solid_at` with the bounds check phrased positively. -/
theorem is_solid_at_eq (s : TerrainMap) (x y : ℤ) :
    is_solid_at s x y =
      if 0 ≤ x ∧ x < (s.width : ℤ) ∧ 0 ≤ y ∧ y < (s.height : ℤ)
      then s.grid x y else false := by
  unfold is_solid_at
  split_ifs with h₁ h₂ h₂ <;> first | rfl | omega

/-! ### C1: a crater clears exactly its disk -/

/-- C1.  After `create_crater(cx, cy, r)` with the center in bounds and
`r > 0`, `is_solid_at` is `false` at every in-bounds point within
Euclidean distance `r` of the center, and every point at distance
strictly beyond `r` (hence in particular beyond `r` plus any buffer)
keeps its pre-crater solidity. -/
theorem crater_clears_within_radius (s : TerrainMap) (cx cy r t x y : ℤ)
    (hcx : 0 ≤ cx ∧ cx < (s.width : ℤ)) (hcy : 0 ≤ cy ∧ cy < (s.height : ℤ))
    (hr : 0 < r) :
    ((0 ≤ x ∧ x < (s.width : ℤ) ∧ 0 ≤ y ∧ y < (s.height : ℤ) ∧
        (x - cx) ^ 2 + (y - cy) ^ 2 ≤ r ^ 2) →
      is_solid_at (create_crater s cx cy r t) x y = false) ∧
    (r ^ 2 < (x - cx) ^ 2 + (y - cy) ^ 2 →
      is_solid_at (create_crater s cx cy r t) x y = is_solid_at s x y) := by
  constructor
  · rintro ⟨hx0, hxW, hy0, hyH, hd⟩
    have hxl : cx - r ≤ x := by nlinarith [sq_nonneg (y - cy)]
    have hxr : x ≤ cx + r := by nlinarith [sq_nonneg (y - cy)]
    have hyl : cy - r ≤ y := by nlinarith [sq_nonneg (x - cx)]
    have hyr : y ≤ cy + r := by nlinarith [sq_nonneg (x - cx)]
    have hcarve : carve s.width s.height cx cy r x y = true := by
      rw [carve_iff]
      refine ⟨?_, ?_, ?_, ?_, hd⟩ <;> omega
    rw [is_solid_at_eq]
    rw [width_create, height_create, grid_create]
    rw [if_pos ⟨hx0, hxW, hy0, hyH⟩]
    simp only [hcarve, if_true]
  · intro hd
    have hcarve : carve s.width s.height cx cy r x y = false := by
      rcases h : carve s.width s.height cx cy r x y with _ | _
      · rfl
      · exact absurd ((carve_iff _ _ _ _ _ _ _).mp h).2.2.2.2 (by omega)
    rw [is_solid_at_eq, is_solid_at_eq]
    rw [width_create, height_create, grid_create]
    simp only [hcarve, if_false, Bool.false_eq_true]

/-- C1 witness: a concrete crater on a 4×4 map with a uniform profile. -/
theorem crater_clears_within_radius_witness :
    is_solid_at (create_crater (mkTerrainMap 4 4 [1, 1, 1, 1]) 1 2 1 0) 1 2
      = false :=
  (crater_clears_within_radius (mkTerrainMap 4 4 [1, 1, 1, 1]) 1 2 1 0 1 2
    (by constructor <;> decide) (by constructor <;> decide)
    (by norm_num)).1 (by refine ⟨by decide, by decide, by decide,
      by decide, by decide⟩)

/-! ### C5: non-positive radius is not a no-op -/

/-- C5 counterexample: on a 1×1 map whose single cell is solid,
`create_crater(0, 0, 0)` — a non-positive radius — appends a crater
record and clears the center cell, so the call is not a no-op. -/
theorem create_crater_zero_radius_not_noop :
    (create_crater (mkTerrainMap 1 1 [0]) 0 0 0 7).craters.length = 1 ∧
    (mkTerrainMap 1 1 [0]).craters.length = 0 ∧
    is_solid_at (create_crater (mkTerrainMap 1 1 [0]) 0 0 0 7) 0 0 = false ∧
    is_solid_at (mkTerrainMap 1 1 [0]) 0 0 = true := by
  decide

/-- C5 amended.  `create_crater` with non-positive radius never raises,
leaves every cell other than the center unchanged (with a strictly
negative radius it leaves the whole grid unchanged and merely recomputes
the height profile), but always appends a crater record. -/
theorem create_crater_nonpositive_radius (s : TerrainMap) (cx cy r t : ℤ)
    (hr : r ≤ 0) :
    (create_crater s cx cy r t).craters = s.craters ++ [⟨cx, cy, r, t⟩] ∧
    (∀ x y : ℤ, ¬(x = cx ∧ y = cy) →
      (create_crater s cx cy r t).grid x y = s.grid x y) ∧
    (r < 0 → (create_crater s cx cy r t).grid = s.grid ∧
      (create_crater s cx cy r t).heightMap = derivedHeightMap s) := by
  have hcarve : ∀ x y : ℤ, ¬(x = cx ∧ y = cy) →
      carve s.width s.height cx cy r x y = false := by
    intro x y hxy
    rcases h : carve s.width s.height cx cy r x y with _ | _
    · rfl
    · obtain ⟨h1, h2, h3, h4, _⟩ := (carve_iff _ _ _ _ _ _ _).mp h
      exact absurd (by constructor <;> omega) hxy
  have hneg : r < 0 → ∀ x y : ℤ, carve s.width s.height cx cy r x y = false := by
    intro hr' x y
    rcases h : carve s.width s.height cx cy r x y with _ | _
    · rfl
    · obtain ⟨h1, h2, _, _, _⟩ := (carve_iff _ _ _ _ _ _ _).mp h
      omega
  refine ⟨craters_create s cx cy r t, ?_, ?_⟩
  · intro x y hxy
    rw [grid_create]
    simp only [hcarve x y hxy, if_false, Bool.false_eq_true]
  · intro hr'
    have hg : (create_crater s cx cy r t).grid = s.grid := by
      funext x y
      rw [grid_create]
      simp only [hneg hr' x y, if_false, Bool.false_eq_true]
    refine ⟨hg, ?_⟩
    rw [heightMap_create, derivedHeightMap, hg]

/-- C5 amended witness: a concrete negative-radius call on the 1×1 map. -/
theorem create_crater_nonpositive_radius_witness :
    (create_crater (mkTerrainMap 1 1 [0]) 0 0 (-1) 3).craters =
      (mkTerrainMap 1 1 [0]).craters ++ [⟨0, 0, -1, 3⟩] :=
  (create_crater_nonpositive_radius (mkTerrainMap 1 1 [0]) 0 0 (-1) 3
    (by norm_num)).1

/-! ### C3: the 50-record cap is enforced only by the merge pass -/

/-- C3 counterexample: 51 consecutive `create_crater` calls (no merge in
between) leave 51 crater records — more than the cap of 50. -/
theorem fifty_one_creates_exceed_cap :
    ((List.range 51).foldl
        (fun s _ => create_crater s 0 0 1 0)
        (mkTerrainMap 1 1 [0])).craters.length = 51 := by
  decide

/-- C3 amended.  Immediately after `merge_overlapping_craters` the crater
list never holds more than 50 records; `create_crater` itself appends
unconditionally, so sequences of creations alone can exceed the cap. -/
theorem merge_caps_crater_list (s : TerrainMap) :
    (merge_overlapping_craters s).craters.length ≤ 50 := by
  show (mergeCraterList s.craters).length ≤ 50
  unfold mergeCraterList mergeTrunc
  split_ifs with h1 h2
  · omega
  · rw [List.length_drop]
    omega
  · omega

/-! ### C6: the two-crater merge dichotomy -/

/-- C6.  For a list of exactly two crater records: if the center distance
is below `0.8 (r1 + r2)` (in exact form: the radius sum is non-negative
and `25 d² < 16 (r1+r2)²`), one record remains after the merge pass; if
the distance is above the threshold (`16 (r1+r2)² < 25 d²`, or a negative
radius sum, which makes the float comparison trivially false), both
records remain. -/
theorem merge_pair_dichotomy (a b : Crater) :
    ((0 ≤ a.r + b.r ∧ 25 * dist2 a b < 16 * (a.r + b.r) ^ 2) →
      (mergeCraterList [a, b]).length = 1) ∧
    ((16 * (a.r + b.r) ^ 2 < 25 * dist2 a b ∨ a.r + b.r < 0) →
      (mergeCraterList [a, b]).length = 2) := by
  have hd : dist2 a b = dist2 b a := by unfold dist2; ring
  have hsort : sortByTime [a, b] = if a.t ≤ b.t then [a, b] else [b, a] := by
    unfold sortByTime
    simp only [List.foldl, insertByTime]
  constructor
  · rintro ⟨hs, hlt⟩
    have hba : overlapB b a = true := by
      rw [overlapB, decide_eq_true_eq, ← hd]
      constructor <;> [omega; nlinarith]
    have hab : overlapB a b = true := by
      rw [overlapB, decide_eq_true_eq]
      constructor <;> [omega; nlinarith]
    unfold mergeCraterList
    rw [if_neg (by simp), hsort]
    split_ifs with ht
    · simp [List.foldl, insertMerge, hba, mergeTrunc]
    · simp [List.foldl, insertMerge, hab, mergeTrunc]
  · intro hfar
    have hba : overlapB b a = false := by
      rw [overlapB, decide_eq_false_iff_not, ← hd]
      rintro ⟨hs, hlt⟩
      rcases hfar with h | h <;> [nlinarith; omega]
    have hab : overlapB a b = false := by
      rw [overlapB, decide_eq_false_iff_not]
      rintro ⟨hs, hlt⟩
      rcases hfar with h | h <;> [nlinarith; omega]
    unfold mergeCraterList
    rw [if_neg (by simp), hsort]
    split_ifs with ht
    · simp [List.foldl, insertMerge, hba, mergeTrunc]
    · simp [List.foldl, insertMerge, hab, mergeTrunc]

/-- C6 witness: two concrete overlapping craters merge into one. -/
theorem merge_pair_dichotomy_witness :
    (mergeCraterList [⟨0, 0, 10, 0⟩, ⟨10, 0, 10, 1⟩]).length = 1 :=
  (merge_pair_dichotomy ⟨0, 0, 10, 0⟩ ⟨10, 0, 10, 1⟩).1 (by norm_num [dist2])

/-! ### C2: the merge pass is not idempotent -/

theorem length_insertMerge_le (c : Crater) (l : List Crater) :
    (insertMerge c l).length ≤ l.length + 1 := by
  induction l with
  | nil => simp [insertMerge]
  | cons m ms ih =>
    rw [insertMerge]
    split_ifs <;> simp <;> omega

theorem length_foldl_insertMerge (L : List Crater) :
    ∀ acc : List Crater,
      (L.foldl (fun a c => insertMerge c a) acc).length ≤ acc.length + L.length := by
  induction L with
  | nil => intro acc; simp
  | cons c cs ih =>
    intro acc
    calc (List.foldl (fun a c => insertMerge c a) (insertMerge c acc) cs).length
        ≤ (insertMerge c acc).length + cs.length := ih _
      _ ≤ acc.length + (c :: cs).length := by
          have := length_insertMerge_le c acc
          simp only [List.length_cons]
          omega

theorem length_insertByTime (c : Crater) (l : List Crater) :
    (insertByTime c l).length = l.length + 1 := by
  induction l with
  | nil => rfl
  | cons m ms ih =>
    rw [insertByTime]
    split_ifs <;> simp [ih]

theorem length_sortByTime (l : List Crater) : (sortByTime l).length = l.length := by
  suffices h : ∀ acc : List Crater,
      (l.foldl (fun a c => insertByTime c a) acc).length = acc.length + l.length by
    simpa using h []
  induction l with
  | nil => intro acc; simp
  | cons c cs ih =>
    intro acc
    simp only [List.foldl_cons, ih, length_insertByTime, List.length_cons]
    omega

theorem length_mergeTrunc_le (m : List Crater) :
    (mergeTrunc m).length ≤ m.length := by
  unfold mergeTrunc
  split_ifs <;> simp [List.length_drop]

theorem sortByTime_pair (a b : Crater) :
    sortByTime [a, b] = if a.t ≤ b.t then [a, b] else [b, a] := by
  unfold sortByTime
  simp only [List.foldl, insertByTime]

/-- The complete two-record merge pass, by cases on the stable sort and
the overlap test. -/
theorem mergeCraterList_pair (a b : Crater) :
    mergeCraterList [a, b] =
      if a.t ≤ b.t then
        (if overlapB b a then [mergeRec b a] else [a, b])
      else
        (if overlapB a b then [mergeRec a b] else [b, a]) := by
  rw [mergeCraterList, if_neg (by simp), sortByTime_pair]
  by_cases ht : a.t ≤ b.t
  · rcases hov : overlapB b a with _ | _ <;>
      simp [ht, hov, List.foldl, insertMerge, mergeTrunc]
  · rcases hov : overlapB a b with _ | _ <;>
      simp [ht, hov, List.foldl, insertMerge, mergeTrunc]

/-- C2 counterexample: three concrete craters (creation times 1, 2, 3).
The third overlaps the first, and the record merged into the accumulator
in their place overlaps the second, so a second call to the merge pass
merges further: the pass is not idempotent, and one call can leave two
records that satisfy the overlap predicate against each other. -/
theorem merge_not_idempotent :
    mergeCraterList
        (mergeCraterList [⟨0, 0, 10, 1⟩, ⟨28, 0, 10, 2⟩, ⟨10, 0, 10, 3⟩]) ≠
      mergeCraterList [⟨0, 0, 10, 1⟩, ⟨28, 0, 10, 2⟩, ⟨10, 0, 10, 3⟩] ∧
    ∃ a b,
      mergeCraterList [⟨0, 0, 10, 1⟩, ⟨28, 0, 10, 2⟩, ⟨10, 0, 10, 3⟩] = [a, b] ∧
      overlapB a b = true := by
  refine ⟨by decide, ⟨5, 0, 20, 3⟩, ⟨28, 0, 10, 2⟩, by decide, by decide⟩

/-- C2 amended.  The merge pass never lengthens the crater list, and it
is idempotent on lists of at most two records; for longer lists a second
consecutive call may merge further (see the counterexample), because
replacing an accumulator entry by a merged record can create a fresh
overlap that the same pass never re-examines. -/
theorem merge_shrinks_and_pair_idempotent (l : List Crater) :
    (mergeCraterList l).length ≤ l.length ∧
    (l.length ≤ 2 → mergeCraterList (mergeCraterList l) = mergeCraterList l) := by
  constructor
  · rw [mergeCraterList]
    split_ifs with h1
    · exact le_rfl
    · calc (mergeTrunc ((sortByTime l).foldl (fun a c => insertMerge c a) [])).length
          ≤ ((sortByTime l).foldl (fun a c => insertMerge c a) []).length :=
            length_mergeTrunc_le _
        _ ≤ ([] : List Crater).length + (sortByTime l).length :=
            length_foldl_insertMerge _ _
        _ ≤ l.length := by rw [length_sortByTime]; simp
  · intro hlen
    match l with
    | [] => rfl
    | [a] => rfl
    | [a, b] =>
      rw [mergeCraterList_pair]
      by_cases ht : a.t ≤ b.t
      · rcases hov : overlapB b a with _ | _
        · simp only [ht, if_true, hov, Bool.false_eq_true, if_false]
          rw [mergeCraterList_pair]
          simp [ht, hov]
        · simp only [ht, if_true, hov, if_true]
          rfl
      · rcases hov : overlapB a b with _ | _
        · simp only [ht, if_false, hov, Bool.false_eq_true, if_false]
          rw [mergeCraterList_pair]
          have ht' : b.t ≤ a.t := by omega
          simp [ht', hov]
        · simp only [ht, if_false, hov, if_true]
          rfl
    | a :: b :: c :: rest => simp at hlen

/-- C2 amended witness: a concrete two-record list (one overlapping pair)
on which a second merge call changes nothing. -/
theorem merge_pair_idempotent_witness :
    mergeCraterList (mergeCraterList [⟨0, 0, 10, 1⟩, ⟨12, 0, 10, 2⟩]) =
      mergeCraterList [⟨0, 0, 10, 1⟩, ⟨12, 0, 10, 2⟩] :=
  (merge_shrinks_and_pair_idempotent [⟨0, 0, 10, 1⟩, ⟨12, 0, 10, 2⟩]).2
    (by norm_num)

/-! ### C10: clamping of the height queries -/

theorem accFromAux_isSome (col : ℤ → Bool) (H : ℕ) :
    ∀ (fuel : ℕ) (y : ℤ), -(H : ℤ) ≤ y →
      ∃ v, accFromAux col H fuel y = some v := by
  intro fuel
  induction fuel with
  | zero => exact fun y _ => ⟨(H : ℤ), rfl⟩
  | succ n ih =>
    intro y hy
    rw [accFromAux, if_neg (by omega)]
    rcases hcol : (if y < 0 then col ((H : ℤ) + y) else col y) with _ | _
    · simp only [hcol, Bool.false_eq_true, if_false]
      exact ih (y + 1) (by omega)
    · simp only [hcol, if_true]
      exact ⟨y, rfl⟩

theorem clampCol_of_neg (s : TerrainMap) (x : ℤ) (hx : x < 0) :
    clampCol s x = clampCol s 0 := by
  unfold clampCol; omega

theorem clampCol_of_ge_width (s : TerrainMap) (x : ℤ) (hW : 0 < s.width)
    (hx : (s.width : ℤ) ≤ x) : clampCol s x = clampCol s ((s.width : ℤ) - 1) := by
  unfold clampCol; omega

theorem get_ground_height_congr (s : TerrainMap) (x₁ x₂ : ℤ)
    (h : clampCol s x₁ = clampCol s x₂) :
    get_ground_height s x₁ = get_ground_height s x₂ := by
  unfold get_ground_height
  rw [h]

theorem get_accurate_congr (s : TerrainMap) (x₁ x₂ ys : ℤ)
    (h : clampCol s x₁ = clampCol s x₂) :
    get_accurate_ground_height s x₁ ys = get_accurate_ground_height s x₂ ys := by
  unfold get_accurate_ground_height
  rw [h]

/-- C10 counterexample: on a 2×3 map, `get_accurate_ground_height` with
`y_start = -4` (below `-height`) indexes the column list out of Python's
negative-index range and raises `IndexError` (`none`): the query is not
total over all inputs. -/
theorem accurate_ground_height_can_fail :
    get_accurate_ground_height (mkTerrainMap 2 3 [1, 1]) 0 (-4) = none := by
  decide

/-- C10 amended.  For every state with positive width,
`get_ground_height` is total and `get_accurate_ground_height` never
fails provided `y_start ≥ -height` (so that Python's negative list
indices stay in range, as they do for the intended `y_start ≥ 0`); both
clamp `x` to the nearest in-range column — `0` for negative `x`,
`width - 1` for `x ≥ width` — and return exactly the value for that
clamped column. -/
theorem ground_queries_clamp (s : TerrainMap) (x ys : ℤ) (hW : 0 < s.width)
    (hys : -(s.height : ℤ) ≤ ys) :
    (x < 0 → get_ground_height s x = get_ground_height s 0 ∧
      get_accurate_ground_height s x ys = get_accurate_ground_height s 0 ys) ∧
    ((s.width : ℤ) ≤ x →
      get_ground_height s x = get_ground_height s ((s.width : ℤ) - 1) ∧
      get_accurate_ground_height s x ys =
        get_accurate_ground_height s ((s.width : ℤ) - 1) ys) ∧
    (get_accurate_ground_height s x ys).isSome = true := by
  refine ⟨fun hx => ⟨get_ground_height_congr s x 0 (clampCol_of_neg s x hx),
      get_accurate_congr s x 0 ys (clampCol_of_neg s x hx)⟩,
    fun hx => ⟨get_ground_height_congr s x _ (clampCol_of_ge_width s x hW hx),
      get_accurate_congr s x _ ys (clampCol_of_ge_width s x hW hx)⟩, ?_⟩
  obtain ⟨v, hv⟩ := accFromAux_isSome (fun y => s.grid (clampCol s x) y) s.height
    (((s.height : ℤ) - ys).toNat) ys hys
  unfold get_accurate_ground_height
  rw [hv]
  rfl

/-- C10 amended witness: a concrete negative `x` on the 2×3 map. -/
theorem ground_queries_clamp_witness :
    get_ground_height (mkTerrainMap 2 3 [1, 1]) (-5) =
        get_ground_height (mkTerrainMap 2 3 [1, 1]) 0 ∧
      get_accurate_ground_height (mkTerrainMap 2 3 [1, 1]) (-5) 0 =
        get_accurate_ground_height (mkTerrainMap 2 3 [1, 1]) 0 0 :=
  (ground_queries_clamp (mkTerrainMap 2 3 [1, 1]) (-5) 0 (by decide)
    (by decide)).1 (by decide)

/-! ### C8: the wall scan visits every other row, not the full span -/

theorem wallScanAux_none_iff (s : TerrainMap) (x w : ℤ) :
    ∀ (fuel : ℕ) (y : ℤ),
      (wallScanAux s x w fuel y = none ↔
        ∀ k : ℕ, k < fuel →
          is_solid_at s (x - 1) (y + 2 * k) = false ∧
          is_solid_at s (x + w) (y + 2 * k) = false) := by
  intro fuel
  induction fuel with
  | zero => intro y; simp [wallScanAux]
  | succ n ih =>
    intro y
    rw [wallScanAux]
    by_cases hl : is_solid_at s (x - 1) y = true
    · rw [if_pos hl]
      constructor
      · intro hc; exact absurd hc (by simp)
      · intro hall
        have h0 := (hall 0 (by omega)).1
        rw [show y + 2 * ((0 : ℕ) : ℤ) = y by push_cast; ring] at h0
        rw [hl] at h0
        cases h0
    · rw [if_neg hl]
      by_cases hr : is_solid_at s (x + w) y = true
      · rw [if_pos hr]
        constructor
        · intro hc; exact absurd hc (by simp)
        · intro hall
          have h0 := (hall 0 (by omega)).2
          rw [show y + 2 * ((0 : ℕ) : ℤ) = y by push_cast; ring] at h0
          rw [hr] at h0
          cases h0
      · rw [if_neg hr, ih (y + 2)]
        constructor
        · intro hall k hk
          match k with
          | 0 =>
            rw [show y + 2 * ((0 : ℕ) : ℤ) = y by push_cast; ring]
            exact ⟨Bool.eq_false_iff.mpr hl, Bool.eq_false_iff.mpr hr⟩
          | k + 1 =>
            have := hall k (by omega)
            rw [show y + 2 + 2 * (k : ℤ) = y + 2 * ((k + 1 : ℕ) : ℤ) by
              push_cast; ring] at this
            exact this
        · intro hall k hk
          have := hall (k + 1) (by omega)
          rw [show y + 2 * ((k + 1 : ℕ) : ℤ) = y + 2 + 2 * (k : ℤ) by
            push_cast; ring] at this
          exact this

theorem wallScanAux_left (s : TerrainMap) (x w : ℤ) :
    ∀ (fuel : ℕ) (y : ℤ), wallScanAux s x w fuel y = some WallSide.left →
      ∃ k : ℕ, k < fuel ∧ is_solid_at s (x - 1) (y + 2 * k) = true := by
  intro fuel
  induction fuel with
  | zero => intro y h; cases h
  | succ n ih =>
    intro y h
    rw [wallScanAux] at h
    by_cases hl : is_solid_at s (x - 1) y = true
    · exact ⟨0, by omega, by
        rw [show y + 2 * ((0 : ℕ) : ℤ) = y by push_cast; ring]; exact hl⟩
    · rw [if_neg hl] at h
      by_cases hr : is_solid_at s (x + w) y = true
      · rw [if_pos hr] at h; cases h
      · rw [if_neg hr] at h
        obtain ⟨k, hk, hsolid⟩ := ih (y + 2) h
        refine ⟨k + 1, by omega, ?_⟩
        rw [show y + 2 * ((k + 1 : ℕ) : ℤ) = y + 2 + 2 * (k : ℤ) by
          push_cast; ring]
        exact hsolid

theorem wallScanAux_right (s : TerrainMap) (x w : ℤ) :
    ∀ (fuel : ℕ) (y : ℤ), wallScanAux s x w fuel y = some WallSide.right →
      ∃ k : ℕ, k < fuel ∧ is_solid_at s (x + w) (y + 2 * k) = true := by
  intro fuel
  induction fuel with
  | zero => intro y h; cases h
  | succ n ih =>
    intro y h
    rw [wallScanAux] at h
    by_cases hl : is_solid_at s (x - 1) y = true
    · rw [if_pos hl] at h; cases h
    · rw [if_neg hl] at h
      by_cases hr : is_solid_at s (x + w) y = true
      · exact ⟨0, by omega, by
          rw [show y + 2 * ((0 : ℕ) : ℤ) = y by push_cast; ring]; exact hr⟩
      · rw [if_neg hr] at h
        obtain ⟨k, hk, hsolid⟩ := ih (y + 2) h
        refine ⟨k + 1, by omega, ?_⟩
        rw [show y + 2 * ((k + 1 : ℕ) : ℤ) = y + 2 + 2 * (k : ℤ) by
          push_cast; ring]
        exact hsolid

/-- C8 counterexample: on a 5×6 map whose only solid column starts at
row 3, the rectangle `(x, y, w, h) = (1, 2, 2, 2)` has a solid pixel in
its span `[2, 4)` at the left edge (column 0, row 3), yet
`check_wall_collision` returns `none` because the scan steps by 2 and
only visits row 2. -/
theorem wall_collision_misses_odd_rows :
    check_wall_collision (mkTerrainMap 5 6 [3, 6, 6, 6, 6]) 1 2 2 2 = none ∧
    is_solid_at (mkTerrainMap 5 6 [3, 6, 6, 6, 6]) (1 - 1) 3 = true ∧
    (2 : ℤ) ≤ 3 ∧ (3 : ℤ) < 2 + 2 := by
  decide

/-- C8 amended.  `check_wall_collision(x, y, w, h)` scans only every
other row of the span — the `((h + 1).tdiv 2).toNat` rows `y + 2k` with
`2k < h` — at columns `x - 1` and `x + w`: it returns `none` exactly when
no scanned row is solid at either edge, and a `left`/`right` answer
implies a solid scanned row at the corresponding edge. -/
theorem wall_collision_scans_stepped_rows (s : TerrainMap) (x y w h : ℤ) :
    (check_wall_collision s x y w h = none ↔
      ∀ k : ℕ, k < ((h + 1).tdiv 2).toNat →
        is_solid_at s (x - 1) (y + 2 * k) = false ∧
        is_solid_at s (x + w) (y + 2 * k) = false) ∧
    (check_wall_collision s x y w h = some WallSide.left →
      ∃ k : ℕ, k < ((h + 1).tdiv 2).toNat ∧
        is_solid_at s (x - 1) (y + 2 * k) = true) ∧
    (check_wall_collision s x y w h = some WallSide.right →
      ∃ k : ℕ, k < ((h + 1).tdiv 2).toNat ∧
        is_solid_at s (x + w) (y + 2 * k) = true) :=
  ⟨wallScanAux_none_iff s x w (((h + 1).tdiv 2).toNat) y,
   wallScanAux_left s x w (((h + 1).tdiv 2).toNat) y,
   wallScanAux_right s x w (((h + 1).tdiv 2).toNat) y⟩

/-- C8 amended witness: the counterexample rectangle, decided through the
scanned-rows characterization. -/
theorem wall_collision_scans_stepped_rows_witness :
    check_wall_collision (mkTerrainMap 5 6 [3, 6, 6, 6, 6]) 1 2 2 2 = none :=
  (wall_collision_scans_stepped_rows (mkTerrainMap 5 6 [3, 6, 6, 6, 6])
    1 2 2 2).1.mpr (by decide)

/-! ### The topmost-solid-row scan -/

theorem firstFromAux_some (p : ℕ → Bool) :
    ∀ (fuel y z : ℕ), firstFromAux p fuel y = some z →
      p z = true ∧ y ≤ z ∧ z < y + fuel ∧
        ∀ w : ℕ, y ≤ w → w < z → p w = false := by
  intro fuel
  induction fuel with
  | zero => intro y z h; cases h
  | succ n ih =>
    intro y z h
    rw [firstFromAux] at h
    by_cases hp : p y = true
    · rw [if_pos hp] at h
      obtain rfl : y = z := by cases h; rfl
      exact ⟨hp, le_rfl, by omega, fun w hw hw' => by omega⟩
    · rw [if_neg hp] at h
      obtain ⟨h1, h2, h3, h4⟩ := ih (y + 1) z h
      refine ⟨h1, by omega, by omega, fun w hw hw' => ?_⟩
      rcases eq_or_lt_of_le hw with rfl | hlt
      · exact Bool.eq_false_iff.mpr hp
      · exact h4 w hlt hw'

theorem firstFromAux_none (p : ℕ → Bool) :
    ∀ (fuel y : ℕ), firstFromAux p fuel y = none →
      ∀ w : ℕ, y ≤ w → w < y + fuel → p w = false := by
  intro fuel
  induction fuel with
  | zero => intro y _ w hw hw'; omega
  | succ n ih =>
    intro y h w hw hw'
    rw [firstFromAux] at h
    by_cases hp : p y = true
    · rw [if_pos hp] at h; cases h
    · rw [if_neg hp] at h
      rcases eq_or_lt_of_le hw with rfl | hlt
      · exact Bool.eq_false_iff.mpr hp
      · exact ih (y + 1) h w hlt (by omega)

theorem firstSolid_eq_of_none (g : ℤ → ℤ → Bool) (H : ℕ) (x : ℤ)
    (h : firstFromAux (fun y => g x (y : ℤ)) H 0 = none) :
    firstSolid g H x = H := by
  unfold firstSolid
  rw [h]

theorem firstSolid_eq_of_some (g : ℤ → ℤ → Bool) (H : ℕ) (x : ℤ) (z : ℕ)
    (h : firstFromAux (fun y => g x (y : ℤ)) H 0 = some z) :
    firstSolid g H x = z := by
  unfold firstSolid
  rw [h]

theorem firstSolid_le (g : ℤ → ℤ → Bool) (H : ℕ) (x : ℤ) :
    firstSolid g H x ≤ H := by
  rcases h : firstFromAux (fun y => g x (y : ℤ)) H 0 with _ | z
  · rw [firstSolid_eq_of_none g H x h]
  · rw [firstSolid_eq_of_some g H x z h]
    obtain ⟨_, _, h3, _⟩ := firstFromAux_some _ H 0 z h
    omega

theorem firstSolid_below_empty (g : ℤ → ℤ → Bool) (H : ℕ) (x : ℤ) :
    ∀ y : ℕ, y < firstSolid g H x → g x (y : ℤ) = false := by
  intro y hy
  rcases h : firstFromAux (fun y => g x (y : ℤ)) H 0 with _ | z
  · rw [firstSolid_eq_of_none g H x h] at hy
    exact firstFromAux_none _ H 0 h y (by omega) (by omega)
  · rw [firstSolid_eq_of_some g H x z h] at hy
    obtain ⟨_, _, _, h4⟩ := firstFromAux_some _ H 0 z h
    exact h4 y (by omega) hy

theorem firstSolid_hit (g : ℤ → ℤ → Bool) (H : ℕ) (x : ℤ) :
    firstSolid g H x < H → g x ((firstSolid g H x : ℕ) : ℤ) = true := by
  intro hlt
  rcases h : firstFromAux (fun y => g x (y : ℤ)) H 0 with _ | z
  · rw [firstSolid_eq_of_none g H x h] at hlt; omega
  · rw [firstSolid_eq_of_some g H x z h] at hlt ⊢
    exact (firstFromAux_some _ H 0 z h).1

theorem firstSolid_mono (g g' : ℤ → ℤ → Bool) (H : ℕ) (x : ℤ)
    (hgg : ∀ y : ℤ, g' x y = true → g x y = true) :
    firstSolid g H x ≤ firstSolid g' H x := by
  by_contra hc
  push_neg at hc
  have hlt : firstSolid g' H x < H := lt_of_lt_of_le hc (firstSolid_le g H x)
  have hsolid := hgg _ (firstSolid_hit g' H x hlt)
  have hempty := firstSolid_below_empty g H x (firstSolid g' H x) hc
  rw [hsolid] at hempty
  cases hempty

theorem firstSolid_congr (g g' : ℤ → ℤ → Bool) (H : ℕ) (x : ℤ)
    (h : ∀ y : ℤ, g x y = g' x y) :
    firstSolid g H x = firstSolid g' H x :=
  le_antisymm
    (firstSolid_mono g g' H x fun y hy => (h y).trans hy)
    (firstSolid_mono g' g H x fun y hy => ((h y).symm).trans hy)

/-- Reading the derived height profile at an in-range column. -/
theorem derivedHeightMap_getD (s : TerrainMap) (i : ℕ) (hi : i < s.width) :
    (derivedHeightMap s).getD i 0 =
      ((firstSolid s.grid s.height (i : ℤ) : ℕ) : ℤ) := by
  unfold derivedHeightMap
  rw [List.getD_eq_getElem?_getD, List.getElem?_map, List.getElem?_range hi]
  rfl

/-- The profile written by `create_crater` is the derived profile of the
post-crater state. -/
theorem heightMap_create_derived (s : TerrainMap) (cx cy r t : ℤ) :
    (create_crater s cx cy r t).heightMap =
      derivedHeightMap (create_crater s cx cy r t) := rfl

/-! ### C4: the height profile is consistent after every crater -/

/-- C4.  After `create_crater` returns, for every column `x` the stored
height `height_map[x]` is at most `H`, every row above it is empty, and —
when it is below `H` — the row it names is solid: `height_map[x]` is
exactly the smallest solid row of the column, or `H` when the column has
no solid cell. -/
theorem crater_updates_height_profile (s : TerrainMap) (cx cy r t : ℤ)
    (x : ℕ) (hx : x < s.width) :
    ((create_crater s cx cy r t).heightMap.getD x 0 ≤ (s.height : ℤ)) ∧
    (∀ y : ℕ, ((y : ℤ) < (create_crater s cx cy r t).heightMap.getD x 0) →
      (create_crater s cx cy r t).grid (x : ℤ) (y : ℤ) = false) ∧
    ((create_crater s cx cy r t).heightMap.getD x 0 < (s.height : ℤ) →
      (create_crater s cx cy r t).grid (x : ℤ)
        ((create_crater s cx cy r t).heightMap.getD x 0) = true) := by
  have hget : (create_crater s cx cy r t).heightMap.getD x 0 =
      ((firstSolid (create_crater s cx cy r t).grid s.height (x : ℤ) : ℕ) : ℤ) := by
    rw [heightMap_create_derived]
    exact derivedHeightMap_getD (create_crater s cx cy r t) x hx
  rw [hget]
  refine ⟨?_, ?_, ?_⟩
  · exact_mod_cast firstSolid_le (create_crater s cx cy r t).grid s.height (x : ℤ)
  · intro y hy
    exact firstSolid_below_empty (create_crater s cx cy r t).grid s.height
      (x : ℤ) y (by exact_mod_cast hy)
  · intro hlt
    exact firstSolid_hit (create_crater s cx cy r t).grid s.height (x : ℤ)
      (by exact_mod_cast hlt)

/-- C4 witness: column 0 of a concrete 2×2 map after a concrete crater. -/
theorem crater_updates_height_profile_witness :
    (create_crater (mkTerrainMap 2 2 [1, 1]) 0 0 1 0).heightMap.getD 0 0 ≤
      ((mkTerrainMap 2 2 [1, 1]).height : ℤ) :=
  (crater_updates_height_profile (mkTerrainMap 2 2 [1, 1]) 0 0 1 0 0
    (by decide)).1

/-! ### C7: how a crater can move the windowed ground height -/

theorem grid_create_imp (s : TerrainMap) (cx cy r t : ℤ) :
    ∀ c y : ℤ, (create_crater s cx cy r t).grid c y = true →
      s.grid c y = true := by
  intro c y h
  simp only [grid_create] at h
  by_cases hc : carve s.width s.height cx cy r c y = true
  · rw [if_pos hc] at h; cases h
  · rw [if_neg hc] at h; exact h

theorem grid_create_off_col (s : TerrainMap) (cx cy r t : ℤ) (c : ℤ)
    (hc : c < cx - r ∨ cx + r < c) :
    ∀ y : ℤ, (create_crater s cx cy r t).grid c y = s.grid c y := by
  intro y
  simp only [grid_create]
  rcases h : carve s.width s.height cx cy r c y with _ | _
  · simp
  · obtain ⟨h1, h2, _, _, _⟩ := (carve_iff _ _ _ _ _ _ _).mp h
    omega

theorem ghStep_mono (W H : ℕ) (q q' : ℤ → ℕ) (xi : ℤ)
    (hq : ∀ c, q c ≤ q' c) (a a' : ℤ) (ha : a ≤ a') (d : ℕ) :
    ghStep W H q xi a d ≤ ghStep W H q' xi a' d := by
  unfold ghStep
  by_cases hb : 0 ≤ xi + (d : ℤ) - 3 ∧ xi + (d : ℤ) - 3 < (W : ℤ)
  · rw [if_pos hb, if_pos hb]
    by_cases h1 : q (xi + (d : ℤ) - 3) < H <;>
      by_cases h2 : q' (xi + (d : ℤ) - 3) < H
    · rw [if_pos h1, if_pos h2]
      exact min_le_min ha (by exact_mod_cast hq _)
    · rw [if_pos h1, if_neg h2]
      exact le_trans (min_le_left _ _) ha
    · exact absurd (lt_of_le_of_lt (hq _) h2) h1
    · rw [if_neg h1, if_neg h2]; exact ha
  · rw [if_neg hb, if_neg hb]; exact ha

theorem ghFold_mono (W H : ℕ) (q q' : ℤ → ℕ) (xi : ℤ)
    (hq : ∀ c, q c ≤ q' c) :
    ∀ (L : List ℕ) (a a' : ℤ), a ≤ a' →
      L.foldl (ghStep W H q xi) a ≤ L.foldl (ghStep W H q' xi) a' := by
  intro L
  induction L with
  | nil => intro a a' ha; exact ha
  | cons d L ih =>
    intro a a' ha
    exact ih _ _ (ghStep_mono W H q q' xi hq a a' ha d)

theorem ghFold_congr (W H : ℕ) (q q' : ℤ → ℕ) (xi : ℤ) :
    ∀ (L : List ℕ),
      (∀ d ∈ L, q (xi + (d : ℤ) - 3) = q' (xi + (d : ℤ) - 3)) →
      ∀ a a' : ℤ, a = a' →
        L.foldl (ghStep W H q xi) a = L.foldl (ghStep W H q' xi) a' := by
  intro L
  induction L with
  | nil => intro _ a a' ha; exact ha
  | cons d L ih =>
    intro hL a a' ha
    refine ih (fun e he => hL e (List.mem_cons_of_mem d he)) _ _ ?_
    unfold ghStep
    rw [hL d (List.mem_cons_self d L), ha]

/-- C7 counterexample: a 12×10 map whose only tall column is column 6
(consistent profile), and the crater `create_crater(4, 2, 2)` whose
bounding box covers columns 2–6.  Column 7 lies outside the bounding
box, yet its `get_ground_height` changes, because the ±3 window of the
query sees column 6. -/
theorem crater_alters_ground_height_beyond_box :
    ((mkTerrainMap 12 10 [5, 5, 5, 5, 5, 5, 2, 5, 5, 5, 5, 5]).heightMap =
      derivedHeightMap (mkTerrainMap 12 10 [5, 5, 5, 5, 5, 5, 2, 5, 5, 5, 5, 5])) ∧
    ((4 : ℤ) + 2 < 7) ∧
    get_ground_height
        (create_crater (mkTerrainMap 12 10 [5, 5, 5, 5, 5, 5, 2, 5, 5, 5, 5, 5])
          4 2 2 0) 7 ≠
      get_ground_height (mkTerrainMap 12 10 [5, 5, 5, 5, 5, 5, 2, 5, 5, 5, 5, 5])
        7 := by
  decide

/-- C7 amended.  On a state whose height profile is consistent with the
grid, a crater never makes `get_ground_height` smaller (shallower) at any
column — in particular at columns whose topmost solid row was inside the
crater — and it leaves `get_ground_height(x)` unchanged at every column
whose clamped index is more than 3 columns away from the crater's
bounding box `[cx - r, cx + r]` (the ±3 scan window can reach changed
columns up to 3 beyond the box, see the counterexample). -/
theorem crater_ground_height_mono (s : TerrainMap) (cx cy r t x : ℤ)
    (hW : 0 < s.width) (hcons : s.heightMap = derivedHeightMap s) :
    (get_ground_height s x ≤ get_ground_height (create_crater s cx cy r t) x) ∧
    ((clampCol s x + 3 < cx - r ∨ cx + r < clampCol s x - 3) →
      get_ground_height (create_crater s cx cy r t) x = get_ground_height s x) := by
  have hxi : 0 ≤ clampCol s x ∧ clampCol s x < (s.width : ℤ) := by
    unfold clampCol; omega
  have hxiNat : ((clampCol s x).toNat : ℤ) = clampCol s x :=
    Int.toNat_of_nonneg hxi.1
  have hxiW : (clampCol s x).toNat < s.width := by omega
  have hgh : get_ground_height s x =
      (List.range 7).foldl
        (ghStep s.width s.height (firstSolid s.grid s.height) (clampCol s x))
        ((firstSolid s.grid s.height ((clampCol s x).toNat : ℤ) : ℕ) : ℤ) := by
    unfold get_ground_height
    rw [hcons, derivedHeightMap_getD s _ hxiW]
  have hseed' : (create_crater s cx cy r t).heightMap.getD
      (clampCol (create_crater s cx cy r t) x).toNat 0 =
      ((firstSolid (create_crater s cx cy r t).grid s.height
        ((clampCol s x).toNat : ℤ) : ℕ) : ℤ) := by
    rw [heightMap_create_derived]
    exact derivedHeightMap_getD (create_crater s cx cy r t)
      (clampCol s x).toNat hxiW
  have hgh' : get_ground_height (create_crater s cx cy r t) x =
      (List.range 7).foldl
        (ghStep s.width s.height
          (firstSolid (create_crater s cx cy r t).grid s.height) (clampCol s x))
        ((firstSolid (create_crater s cx cy r t).grid s.height
          ((clampCol s x).toNat : ℤ) : ℕ) : ℤ) := by
    unfold get_ground_height
    rw [hseed']
    rfl
  constructor
  · rw [hgh, hgh']
    refine ghFold_mono s.width s.height _ _ (clampCol s x)
      (fun c => firstSolid_mono _ _ s.height c
        (fun y hy => grid_create_imp s cx cy r t c y hy))
      (List.range 7) _ _ ?_
    exact_mod_cast firstSolid_mono _ _ s.height _
      (fun y hy => grid_create_imp s cx cy r t _ y hy)
  · intro hfar
    rw [hgh, hgh']
    refine ghFold_congr s.width s.height _ _ (clampCol s x) (List.range 7)
      ?_ _ _ ?_
    · intro d hd
      have hd7 : (d : ℤ) < 7 := by exact_mod_cast List.mem_range.mp hd
      refine firstSolid_congr _ _ s.height _ fun y => ?_
      exact grid_create_off_col s cx cy r t _ (by omega) y
    · have := firstSolid_congr (create_crater s cx cy r t).grid s.grid s.height
        ((clampCol s x).toNat : ℤ)
        (fun y => grid_create_off_col s cx cy r t _ (by omega) y)
      exact_mod_cast this

/-- C7 amended witness: the counterexample map; the crater never raises
the windowed ground height at column 7. -/
theorem crater_ground_height_mono_witness :
    get_ground_height (mkTerrainMap 12 10 [5, 5, 5, 5, 5, 5, 2, 5, 5, 5, 5, 5]) 7 ≤
      get_ground_height
        (create_crater (mkTerrainMap 12 10 [5, 5, 5, 5, 5, 5, 2, 5, 5, 5, 5, 5])
          4 2 2 0) 7 :=
  (crater_ground_height_mono (mkTerrainMap 12 10 [5, 5, 5, 5, 5, 5, 2, 5, 5, 5, 5, 5])
    4 2 2 0 7 (by decide) (by decide)).1

/-! ### C9: the terrain generator's length and band guarantees -/

theorem le_pytrunc_of_le (a : ℤ) (q : ℚ) (h0 : 0 ≤ q) (h : (a : ℚ) ≤ q) :
    a ≤ pytrunc q := by
  unfold pytrunc
  rw [if_neg (not_lt.mpr h0)]
  exact Int.le_floor.mpr h

theorem pytrunc_le_of_le (q : ℚ) (b : ℤ) (h0 : 0 ≤ q) (h : q ≤ (b : ℚ)) :
    pytrunc q ≤ b := by
  unfold pytrunc
  rw [if_neg (not_lt.mpr h0)]
  calc ⌊q⌋ ≤ ⌊(b : ℚ)⌋ := Int.floor_le_floor h
    _ = b := Int.floor_intCast b

/-- Every emitted generator column is inside the clamped band. -/
theorem ghmVal_band (sinq : ℚ → ℚ) (rq : ℕ → ℚ) (c : ℚ) (x k : ℕ) :
    (SCREEN_HEIGHT : ℤ) - 220 ≤ ghmVal sinq rq c x k ∧
      ghmVal sinq rq c x k ≤ (SCREEN_HEIGHT : ℤ) - 40 := by
  unfold ghmVal
  have hlo : ((SCREEN_HEIGHT : ℚ) - 220) ≤
      max ((SCREEN_HEIGHT : ℚ) - 220)
        (min ((SCREEN_HEIGHT : ℚ) - 40) (ghmTotal sinq rq c x k)) :=
    le_max_left _ _
  have h0 : (0 : ℚ) ≤
      max ((SCREEN_HEIGHT : ℚ) - 220)
        (min ((SCREEN_HEIGHT : ℚ) - 40) (ghmTotal sinq rq c x k)) := by
    refine le_trans ?_ hlo
    norm_num [SCREEN_HEIGHT]
  constructor
  · refine le_pytrunc_of_le _ _ h0 ?_
    refine le_trans ?_ hlo
    norm_num [SCREEN_HEIGHT]
  · refine pytrunc_le_of_le _ _ h0 ?_
    refine max_le ?_ (le_trans (min_le_left _ _) ?_) <;>
      norm_num [SCREEN_HEIGHT]

theorem ghmFold_length (sinq : ℚ → ℚ) (rq : ℕ → ℚ) (c : ℚ) :
    ∀ (L : List ℕ) (st : List ℤ × ℕ),
      ((L.foldl (ghmStep sinq rq c) st).1).length = st.1.length + L.length := by
  intro L
  induction L with
  | nil => intro st; simp
  | cons x L ih =>
    intro st
    rw [List.foldl_cons, ih]
    simp [ghmStep]
    omega

theorem ghmFold_band (sinq : ℚ → ℚ) (rq : ℕ → ℚ) (c : ℚ) :
    ∀ (L : List ℕ) (st : List ℤ × ℕ),
      (∀ v ∈ st.1, (SCREEN_HEIGHT : ℤ) - 220 ≤ v ∧ v ≤ (SCREEN_HEIGHT : ℤ) - 40) →
      ∀ v ∈ (L.foldl (ghmStep sinq rq c) st).1,
        (SCREEN_HEIGHT : ℤ) - 220 ≤ v ∧ v ≤ (SCREEN_HEIGHT : ℤ) - 40 := by
  intro L
  induction L with
  | nil => intro st h; exact h
  | cons x L ih =>
    intro st h
    rw [List.foldl_cons]
    refine ih _ fun v hv => ?_
    rcases List.mem_append.mp hv with hold | hnew
    · exact h v hold
    · rw [List.mem_singleton.mp hnew]
      exact ghmVal_band sinq rq c x st.2

theorem generate_height_map_length (sinq : ℚ → ℚ) (rq : ℕ → ℚ)
    (width : ℕ) (c : ℚ) (k : ℕ) :
    (generate_height_map sinq rq width c k).1.length = width := by
  unfold generate_height_map
  rw [ghmFold_length]
  simp

theorem duneCol_length (powq : ℚ → ℚ → ℚ) (center dw : ℤ) (dh : ℚ)
    (steep : ℤ) (m : List ℤ) (x : ℤ) :
    (duneCol powq center dw dh steep m x).length = m.length := by
  unfold duneCol
  split_ifs <;> simp

theorem duneApply_length (powq : ℚ → ℚ → ℚ) (width : ℕ) (center dw : ℤ)
    (dh : ℚ) (steep : ℤ) (hm : List ℤ) :
    (duneApply powq width center dw dh steep hm).length = hm.length := by
  unfold duneApply
  generalize (List.range (min (width : ℤ) (center + dw) -
    max 0 (center - dw)).toNat) = L
  induction L generalizing hm with
  | nil => rfl
  | cons i L ih =>
    rw [List.foldl_cons, ih, duneCol_length]

theorem duneLoop_some (powq : ℚ → ℚ → ℚ) (rz : ℕ → ℤ) (width : ℕ) (c : ℚ)
    (hw : (100 : ℤ) ≤ (width : ℤ) - 100) :
    ∀ (n : ℕ) (st : List ℤ × ℕ),
      ∃ out k', duneLoop powq rz width c n st = some (out, k') ∧
        out.length = st.1.length := by
  intro n
  induction n with
  | zero => intro st; exact ⟨st.1, st.2, rfl, rfl⟩
  | succ m ih =>
    rintro ⟨hm, k⟩
    rw [duneLoop]
    rw [show pyRandint (rz k) 100 ((width : ℤ) - 100) =
        some (max 100 (min ((width : ℤ) - 100) (rz k))) from by
      unfold pyRandint; rw [if_pos hw]]
    rw [show pyRandint (rz (k + 1)) 80 150 =
        some (max 80 (min 150 (rz (k + 1)))) from by
      unfold pyRandint; rw [if_pos (by norm_num)]]
    rw [show pyRandint (rz (k + 2)) 30 60 =
        some (max 30 (min 60 (rz (k + 2)))) from by
      unfold pyRandint; rw [if_pos (by norm_num)]]
    obtain ⟨out, k', hout, hlen⟩ := ih (duneApply powq width
      (max 100 (min ((width : ℤ) - 100) (rz k)))
      (max 80 (min 150 (rz (k + 1))))
      ((max 30 (min 60 (rz (k + 2))) : ℤ) * c)
      (if rz (k + 3) ≤ 0 then -1 else 1) hm, k + 4)
    refine ⟨out, k', hout, ?_⟩
    rw [hlen]
    exact duneApply_length _ _ _ _ _ _ _

theorem add_sand_dunes_some (powq : ℚ → ℚ → ℚ) (rz : ℕ → ℤ) (hm : List ℤ)
    (c : ℚ) (k : ℕ) (hw : 200 ≤ hm.length) :
    ∃ out k', add_sand_dunes powq rz hm c k = some (out, k') ∧
      out.length = hm.length := by
  unfold add_sand_dunes
  exact duneLoop_some powq rz hm.length c (by omega) _ (hm, k)

/-- `add_sand_dunes` raises as soon as it draws a dune center, whenever
the profile is narrower than 200 columns. -/
theorem add_sand_dunes_none (powq : ℚ → ℚ → ℚ) (rz : ℕ → ℤ) (hm : List ℤ)
    (c : ℚ) (k : ℕ) (hlen : hm.length < 200)
    (hn : 0 < (pytrunc (3 + c * 2)).toNat) :
    add_sand_dunes powq rz hm c k = none := by
  unfold add_sand_dunes
  obtain ⟨m, hm'⟩ : ∃ m, (pytrunc (3 + c * 2)).toNat = m + 1 :=
    ⟨(pytrunc (3 + c * 2)).toNat - 1, by omega⟩
  rw [hm', duneLoop]
  rw [show pyRandint (rz k) 100 ((hm.length : ℤ) - 100) = none from by
    unfold pyRandint; rw [if_neg (by omega)]]

theorem smoothOnce_length (hm : List ℤ) : (smoothOnce hm).length = hm.length := by
  simp [smoothOnce]

theorem smooth_terrain_length (hm : List ℤ) :
    ∀ n : ℕ, (smooth_terrain hm n).length = hm.length := by
  intro n
  induction n generalizing hm with
  | zero => rfl
  | succ m ih =>
    rw [smooth_terrain, ih (smoothOnce hm), smoothOnce_length]

/-- C9 counterexample: `generate_varied_terrain(150, 1.0)` — a positive
width — produces no sequence at all: the dune pass draws
`randint(100, 50)` from an empty range and raises `ValueError`
(regardless of the sine, power and oracle functions; they are
instantiated with zeros here to close the statement). -/
theorem varied_terrain_raises_below_200 :
    generate_varied_terrain (fun _ => 0) (fun _ _ => 0) (fun _ => 0)
      (fun _ => 0) 150 1 0 = none := by
  unfold generate_varied_terrain
  rw [add_sand_dunes_none]
  · rw [generate_height_map_length]
    norm_num
  · rw [show (3 + (1 : ℚ) * 2) = ((5 : ℤ) : ℚ) by norm_num]
    unfold pytrunc
    rw [if_neg (by norm_num), Int.floor_intCast]
    norm_num

/-- C9 amended.  For every width and every oracle, the base generator
`generate_height_map` returns an integer sequence of length `width` with
every value inside the clamped band
`[SCREEN_HEIGHT - 220, SCREEN_HEIGHT - 40]`; the full pipeline
`generate_varied_terrain` returns a sequence of length `width` when
`width ≥ 200`, and raises for positive widths below 200 (see the
counterexample), because the dune pass samples its centers from
`[100, width - 100]`. -/
theorem generator_length_and_band (sinq : ℚ → ℚ) (powq : ℚ → ℚ → ℚ)
    (rq : ℕ → ℚ) (rz : ℕ → ℤ) (width : ℕ) (c : ℚ) (k : ℕ)
    (hw : 0 < width) :
    ((generate_height_map sinq rq width c k).1.length = width ∧
      ∀ v ∈ (generate_height_map sinq rq width c k).1,
        (SCREEN_HEIGHT : ℤ) - 220 ≤ v ∧ v ≤ (SCREEN_HEIGHT : ℤ) - 40) ∧
    (200 ≤ width →
      ∃ out, generate_varied_terrain sinq powq rq rz width c k = some out ∧
        out.length = width) := by
  refine ⟨⟨generate_height_map_length sinq rq width c k, ?_⟩, ?_⟩
  · intro v hv
    exact ghmFold_band sinq rq c (List.range width) ([], k)
      (by intro v hv; cases hv) v hv
  · intro h200
    obtain ⟨out, k', hsome, hlen⟩ := add_sand_dunes_some powq rz
      (generate_height_map sinq rq width c k).1 c
      (generate_height_map sinq rq width c k).2
      (by rw [generate_height_map_length]; exact h200)
    refine ⟨smooth_terrain out 1, ?_, ?_⟩
    · unfold generate_varied_terrain
      rw [hsome]
    · rw [smooth_terrain_length, hlen, generate_height_map_length]

/-- C9 amended witness: width 200, complexity 1, zero oracles. -/
theorem generator_length_and_band_witness :
    (generate_height_map (fun _ => 0) (fun _ => 0) 200 1 0).1.length = 200 :=
  (generator_length_and_band (fun _ => 0) (fun _ _ => 0) (fun _ => 0)
    (fun _ => 0) 200 1 0 (by norm_num)).1.1

end HeliGame
